import Mathlib

/-!
Verification of the CampusCompass in-memory calendar engine
(`src/backend/calendar_manager.py`).

Shallow embedding conventions:
* A Python `datetime` (always timezone-aware UTC after the module's
  `_ensure_aware` / `_parse_datetime` normalization, which we therefore model
  as the identity) is a record of (year, month, day, microsecond-of-day).
  Instant comparison and `timedelta` arithmetic go through `toordinal`,
  Python's own proleptic-Gregorian day number (`date.toordinal`).
* Machine integers do not overflow in Python; all numbers are `Int`/`Nat`.
  Python's float arithmetic on durations (`total_seconds() / 60`) is exact for
  every realistic magnitude and is modelled by exact integer/rational
  comparison.
* The `while` loops of `expand_recurring_event` and `find_free_slots` are
  modelled with explicit fuel; `PyResult.fuelOut` marks fuel exhaustion,
  `PyResult.err` marks a raised exception (the `ValueError` of
  `datetime.replace` on an invalid date).
* MongoDB is modelled as a list of documents: `insert_one` appends,
  `delete_one` / `update_one` act on the first matching document, `find`
  with `.sort('start_time', 1)` sorts by start instant.
-/

/-- Microseconds in one day. -/
def microsPerDay : Int := 86400000000

/-- Microseconds in one minute. -/
def minuteMicros : Int := 60000000

/-- Gregorian leap-year rule, as in Python's `calendar.isleap`. -/
def isLeap (y : Int) : Bool := y % 4 == 0 && (y % 100 != 0 || y % 400 == 0)

/-- Number of days in a month, as in Python's `calendar.monthrange` /
`datetime` validation. -/
def daysInMonth (y m : Int) : Int :=
  if m = 2 then (if isLeap y then 29 else 28)
  else if m = 4 ∨ m = 6 ∨ m = 9 ∨ m = 11 then 30
  else 31

/-- Days in the year before the first day of month `m` (Python's
`datetime._days_before_month`). -/
def daysBeforeMonth (y m : Int) : Int :=
  (if m = 1 then 0 else if m = 2 then 31 else if m = 3 then 59 else if m = 4 then 90
   else if m = 5 then 120 else if m = 6 then 151 else if m = 7 then 181
   else if m = 8 then 212 else if m = 9 then 243 else if m = 10 then 273
   else if m = 11 then 304 else 334)
  + (if 2 < m ∧ isLeap y then 1 else 0)

/-- Python's `date(y, m, d).toordinal()`: proleptic Gregorian day number,
with day 1 = 0001-01-01. -/
def toordinal3 (y m d : Int) : Int :=
  365 * (y - 1) + ((y - 1) / 4) - ((y - 1) / 100) + ((y - 1) / 400)
    + daysBeforeMonth y m + d

/-- A timezone-aware (UTC) Python `datetime`: calendar date plus
microsecond-of-day. -/
structure PyDateTime where
  year : Int
  month : Int
  day : Int
  micro : Int
deriving DecidableEq

def toordinal (t : PyDateTime) : Int := toordinal3 t.year t.month t.day

/-- The instant of a datetime, in microseconds from the proleptic epoch.
Python's datetime comparison and subtraction are instant-based; both are
modelled through this function. -/
def toMicro (t : PyDateTime) : Int := toordinal t * microsPerDay + t.micro

/-- The datetime holds a date that Python's `datetime` constructor accepts,
and a time-of-day within one day.  Every Python `datetime` object satisfies
this by construction.  (Python additionally bounds the year to 1..9999 and
raises `OverflowError` past it; we leave years unbounded, which only makes
more inputs defined.) -/
def ValidDT (t : PyDateTime) : Prop :=
  1 ≤ t.month ∧ t.month ≤ 12 ∧ 1 ≤ t.day ∧ t.day ≤ daysInMonth t.year t.month
    ∧ 0 ≤ t.micro ∧ t.micro < microsPerDay

instance (t : PyDateTime) : Decidable (ValidDT t) := by
  unfold ValidDT; infer_instance

/-- Python `a < b` on datetimes (instant order). -/
def dtLt (a b : PyDateTime) : Prop := toMicro a < toMicro b

/-- Python `a <= b` on datetimes (instant order). -/
def dtLe (a b : PyDateTime) : Prop := toMicro a ≤ toMicro b

instance (a b : PyDateTime) : Decidable (dtLt a b) := by unfold dtLt; infer_instance
instance (a b : PyDateTime) : Decidable (dtLe a b) := by unfold dtLe; infer_instance

/-- Python `a.date() < b.date()`. -/
def dateLt (a b : PyDateTime) : Prop := toordinal a < toordinal b

instance (a b : PyDateTime) : Decidable (dateLt a b) := by unfold dateLt; infer_instance

/-- Python `a - b` on datetimes: the `timedelta`, as a microsecond count. -/
def subDt (a b : PyDateTime) : Int := toMicro a - toMicro b

/-- Advance a datetime by one calendar day (the effect of
`+ timedelta(days=1)` on a valid datetime). -/
def nextDate (t : PyDateTime) : PyDateTime :=
  if t.day < daysInMonth t.year t.month then { t with day := t.day + 1 }
  else if t.month < 12 then { t with month := t.month + 1, day := 1 }
  else { year := t.year + 1, month := 1, day := 1, micro := t.micro }

/-- Step a datetime back one calendar day (used for negative day offsets). -/
def prevDate (t : PyDateTime) : PyDateTime :=
  if 1 < t.day then { t with day := t.day - 1 }
  else if 1 < t.month then
    { t with month := t.month - 1, day := daysInMonth t.year (t.month - 1) }
  else { year := t.year - 1, month := 12, day := 31, micro := t.micro }

/-- `t + timedelta(days=k)` for a whole number of days. -/
def addDays (k : Int) (t : PyDateTime) : PyDateTime :=
  if 0 ≤ k then Nat.iterate nextDate k.toNat t
  else Nat.iterate prevDate (-k).toNat t

/-- `t + timedelta(microseconds=δ)`: normalize the time-of-day and carry
whole days, exactly as Python's datetime arithmetic does. -/
def addMicros (t : PyDateTime) (δ : Int) : PyDateTime :=
  let total := t.micro + δ
  addDays (total / microsPerDay) { t with micro := total % microsPerDay }

-- ============================================================
-- Arithmetic facts about the date model
-- ============================================================

theorem daysInMonth_ge (y m : Int) : 28 ≤ daysInMonth y m := by
  unfold daysInMonth
  split
  · split <;> norm_num
  · split <;> norm_num

theorem daysInMonth_le (y m : Int) : daysInMonth y m ≤ 31 := by
  unfold daysInMonth
  split
  · split <;> norm_num
  · split <;> norm_num

theorem toordinal_nextDate (t : PyDateTime) (h : ValidDT t) :
    toordinal (nextDate t) = toordinal t + 1 := by
  obtain ⟨y, m, d, mic⟩ := t
  obtain ⟨hm1, hm2, hd1, hd2, _, _⟩ := h
  simp only at hm1 hm2 hd1 hd2
  unfold nextDate toordinal
  by_cases hlt : d < daysInMonth y m
  · simp only [hlt, if_true]
    unfold toordinal3; omega
  · simp only [hlt, if_false]
    by_cases hm : m < 12
    · simp only [hm, if_true]
      have hd : d = daysInMonth y m := by simp only at hlt; omega
      rw [hd]
      unfold toordinal3 daysBeforeMonth daysInMonth
      have h12 : m ≤ 11 := by omega
      interval_cases m <;> cases hL : isLeap y <;> simp [hL] <;> omega
    · simp only [hm, if_false]
      have hm12 : m = 12 := by simp only at hm; omega
      have hd : d = 31 := by
        have h31 : daysInMonth y m = 31 := by
          unfold daysInMonth; rw [hm12]; norm_num
        omega
      subst hm12
      subst hd
      unfold toordinal3 daysBeforeMonth isLeap
      norm_num
      cases h4 : y % 4 == 0 <;> cases h100 : y % 100 != 0 <;> cases h400 : y % 400 == 0 <;>
        simp_all <;> omega

theorem validDT_nextDate (t : PyDateTime) (h : ValidDT t) : ValidDT (nextDate t) := by
  obtain ⟨y, m, d, mic⟩ := t
  obtain ⟨hm1, hm2, hd1, hd2, hmic1, hmic2⟩ := h
  simp only at hm1 hm2 hd1 hd2 hmic1 hmic2
  unfold nextDate ValidDT
  by_cases hlt : d < daysInMonth y m
  · simp only [hlt, if_true]
    exact ⟨hm1, hm2, by omega, by omega, hmic1, hmic2⟩
  · simp only [hlt, if_false]
    by_cases hm : m < 12
    · simp only [hm, if_true]
      have h28 := daysInMonth_ge y (m + 1)
      exact ⟨by omega, by omega, by omega, by omega, hmic1, hmic2⟩
    · simp only [hm, if_false]
      have h28 := daysInMonth_ge (y + 1) 1
      exact ⟨by norm_num, by norm_num, by norm_num, by omega, hmic1, hmic2⟩

theorem micro_nextDate (t : PyDateTime) : (nextDate t).micro = t.micro := by
  obtain ⟨y, m, d, mic⟩ := t
  unfold nextDate
  split
  · rfl
  · split <;> rfl

theorem toMicro_nextDate (t : PyDateTime) (h : ValidDT t) :
    toMicro (nextDate t) = toMicro t + microsPerDay := by
  unfold toMicro
  rw [toordinal_nextDate t h, micro_nextDate t]
  ring

theorem nextDate_iter_valid (t : PyDateTime) (h : ValidDT t) (k : Nat) :
    ValidDT (Nat.iterate nextDate k t) ∧
      toMicro (Nat.iterate nextDate k t) = toMicro t + k * microsPerDay := by
  induction k generalizing t with
  | zero => exact ⟨h, by simp⟩
  | succ n ih =>
    rw [Function.iterate_succ_apply]
    obtain ⟨hv, hm⟩ := ih (nextDate t) (validDT_nextDate t h)
    refine ⟨hv, ?_⟩
    rw [hm, toMicro_nextDate t h]
    push_cast
    ring

theorem toMicro_addDays (k : Int) (t : PyDateTime) (h : ValidDT t) (hk : 0 ≤ k) :
    ValidDT (addDays k t) ∧ toMicro (addDays k t) = toMicro t + k * microsPerDay := by
  unfold addDays
  rw [if_pos hk]
  obtain ⟨hv, hm⟩ := nextDate_iter_valid t h k.toNat
  refine ⟨hv, ?_⟩
  rw [hm]
  congr 1
  rw [Int.toNat_of_nonneg hk]

theorem toMicro_addMicros (t : PyDateTime) (δ : Int) (h : ValidDT t) (hδ : 0 ≤ δ) :
    ValidDT (addMicros t δ) ∧ toMicro (addMicros t δ) = toMicro t + δ := by
  unfold addMicros
  have htot : 0 ≤ t.micro + δ := by
    obtain ⟨_, _, _, _, h5, _⟩ := h
    omega
  have hq : 0 ≤ (t.micro + δ) / microsPerDay := by
    simp only [microsPerDay] at htot ⊢
    omega
  have hr1 : 0 ≤ (t.micro + δ) % microsPerDay := by
    simp only [microsPerDay]; omega
  have hr2 : (t.micro + δ) % microsPerDay < microsPerDay := by
    simp only [microsPerDay]; omega
  have hvalid : ValidDT { t with micro := (t.micro + δ) % microsPerDay } := by
    obtain ⟨h1, h2, h3, h4, _, _⟩ := h
    exact ⟨h1, h2, h3, h4, hr1, hr2⟩
  obtain ⟨hv, hm⟩ := toMicro_addDays ((t.micro + δ) / microsPerDay) _ hvalid hq
  refine ⟨hv, ?_⟩
  rw [hm]
  unfold toMicro toordinal
  dsimp only
  simp only [microsPerDay]
  omega

-- ============================================================
-- Event model (`CalendarEvent`, `__post_init__` validation)
-- ============================================================

/-- A `CalendarEvent` dataclass instance (its fields after a successful
`__post_init__`). -/
structure CalendarEvent where
  id : String
  user_id : String
  title : String
  start_time : PyDateTime
  end_time : PyDateTime
  event_type : String
  location : Option String
  description : Option String
  color : String
  recurrence : String
  recurrence_end_date : Option PyDateTime
  reminders : List Int
deriving DecidableEq

/-- `CalendarEvent(...)` construction: `__post_init__` raises `ValueError`
("Start time must be before end time") when `start_time >= end_time`, and
defaults `reminders` to `[15, 60]` when `None` was passed.  Pure value
construction: no side effect is modelled because the source has none. -/
def mkCalendarEvent (id user_id title : String) (start_time end_time : PyDateTime)
    (event_type : String) (location description : Option String) (color : String)
    (recurrence : String) (recurrence_end_date : Option PyDateTime)
    (reminders : Option (List Int)) : Except String CalendarEvent :=
  if dtLe end_time start_time then
    Except.error "Start time must be before end time"
  else
    Except.ok
      { id := id, user_id := user_id, title := title,
        start_time := start_time, end_time := end_time,
        event_type := event_type, location := location,
        description := description, color := color,
        recurrence := recurrence, recurrence_end_date := recurrence_end_date,
        reminders := reminders.getD [15, 60] }

/-- The datetimes of every Python `CalendarEvent` object are valid datetime
objects with `start_time < end_time` (enforced by `__post_init__`). -/
def ValidEvent (ev : CalendarEvent) : Prop :=
  ValidDT ev.start_time ∧ ValidDT ev.end_time ∧ dtLt ev.start_time ev.end_time

instance (ev : CalendarEvent) : Decidable (ValidEvent ev) := by
  unfold ValidEvent; infer_instance

-- ============================================================
-- Calendar engine (in-memory `Calendar` class)
-- ============================================================

/-- The `Calendar` class: a user id and its events.  The Python `events`
dict is insertion-ordered; it is modelled as the list of its values. -/
structure Calendar where
  user_id : String
  events : List CalendarEvent

/-- Outcome of running a piece of Python code under a fuel budget:
a returned value, a raised exception, or fuel exhaustion (the model's
marker for "the loop was still running after `fuel` iterations"). -/
inductive PyResult (α : Type) where
  | ok (value : α)
  | err
  | fuelOut
deriving DecidableEq

/-- The month-rollover branch of the expansion step:
`current.replace(year=current.year+1, month=1)` when December, else
`current.replace(month=current.month+1)`; `replace` raises `ValueError`
(here `none`) when the kept day-of-month does not exist in the target
month. -/
def monthRoll (current : PyDateTime) : Option PyDateTime :=
  if current.month = 12 then
    (if current.day ≤ daysInMonth (current.year + 1) 1 then
      some { current with year := current.year + 1, month := 1 }
     else none)
  else
    (if current.day ≤ daysInMonth current.year (current.month + 1) then
      some { current with month := current.month + 1 }
     else none)

/-- One step of `expand_recurring_event`'s while-loop: how `current` is
advanced for each recurrence tag.  Faithful quirk: a tag that is none of
daily/weekly/biweekly/monthly matches no branch and leaves `current`
unchanged. -/
def expandStep (recurrence : String) (current : PyDateTime) : Option PyDateTime :=
  if recurrence = "daily" then some (addDays 1 current)
  else if recurrence = "weekly" then some (addDays 7 current)
  else if recurrence = "biweekly" then some (addDays 14 current)
  else if recurrence = "monthly" then monthRoll current
  else some current

/-- The while-loop of `expand_recurring_event`:
`while current < limit and current < end:` append `(current, current +
duration)` if `current >= start`, then advance `current`. -/
def expandLoop (recurrence : String) (rangeStart limit rangeEnd : PyDateTime)
    (dur : Int) : Nat → PyDateTime → List (PyDateTime × PyDateTime) →
    PyResult (List (PyDateTime × PyDateTime))
  | 0, _, _ => .fuelOut
  | fuel + 1, current, acc =>
    if dtLt current limit ∧ dtLt current rangeEnd then
      match expandStep recurrence current with
      | some c2 =>
        expandLoop recurrence rangeStart limit rangeEnd dur fuel c2
          (if dtLe rangeStart current then acc ++ [(current, addMicros current dur)] else acc)
      | none => .err
    else .ok acc

/-- `Calendar.expand_recurring_event`: all instances of an event inside
`[start, end)` (instances are kept when their *start* is in the window).
`_ensure_aware` is the identity here (all instants are already UTC). -/
def expand_recurring_event (ev : CalendarEvent) (start rangeEnd : PyDateTime)
    (fuel : Nat) : PyResult (List (PyDateTime × PyDateTime)) :=
  if ev.recurrence = "none" then
    .ok (if dtLe start ev.start_time ∧ dtLt ev.start_time rangeEnd then
          [(ev.start_time, ev.end_time)]
         else [])
  else
    expandLoop ev.recurrence start (ev.recurrence_end_date.getD rangeEnd) rangeEnd
      (subDt ev.end_time ev.start_time) fuel ev.start_time []

/-- Stable insertion sort by an integer key: the model of Python's stable
`list.sort(key=...)` / Mongo's sort on a field. -/
def insertByKey {α : Type} (key : α → Int) (x : α) : List α → List α
  | [] => [x]
  | y :: ys => if key x ≤ key y then x :: y :: ys else y :: insertByKey key x ys

def sortByKey {α : Type} (key : α → Int) : List α → List α
  | [] => []
  | x :: xs => insertByKey key x (sortByKey key xs)

/-- One calendar instance occurrence: (start, end, owning event). -/
abbrev Inst : Type := PyDateTime × PyDateTime × CalendarEvent

def instKey (p : Inst) : Int := toMicro p.1

/-- The per-event gathering loop of `Calendar.get_events_for_range`. -/
def gatherInstances (start rangeEnd : PyDateTime) (fuel : Nat) :
    List CalendarEvent → PyResult (List Inst)
  | [] => .ok []
  | ev :: rest =>
    match expand_recurring_event ev start rangeEnd fuel with
    | .ok ts =>
      match gatherInstances start rangeEnd fuel rest with
      | .ok others => .ok (ts.map (fun p => (p.1, p.2, ev)) ++ others)
      | .err => .err
      | .fuelOut => .fuelOut
    | .err => .err
    | .fuelOut => .fuelOut

/-- `Calendar.get_events_for_range`: expand every owned event over the
window and sort the combined instances by start time. -/
def get_events_for_range (cal : Calendar) (start rangeEnd : PyDateTime)
    (fuel : Nat) : PyResult (List Inst) :=
  match gatherInstances start rangeEnd fuel cal.events with
  | .ok l => .ok (sortByKey instKey l)
  | .err => .err
  | .fuelOut => .fuelOut

/-- The conflict scan of `Calendar.check_availability`: return `False` on
the first overlapping instance (`start < event_end and end > event_start`),
`True` if none overlaps. -/
def availLoop (start rangeEnd : PyDateTime) : List Inst → Bool
  | [] => true
  | (es, ee, _) :: rest =>
    if dtLt start ee ∧ dtLt es rangeEnd then false else availLoop start rangeEnd rest

/-- `Calendar.check_availability`. -/
def check_availability (cal : Calendar) (start rangeEnd : PyDateTime)
    (fuel : Nat) : PyResult Bool :=
  match get_events_for_range cal start rangeEnd fuel with
  | .ok l => .ok (availLoop start rangeEnd l)
  | .err => .err
  | .fuelOut => .fuelOut

/-- The within-day sweep of `Calendar.find_free_slots`: walk the sorted
busy list; before each busy block emit the gap `[slot_start, busy_start)`
when it is at least `min_duration` minutes long; then move `slot_start` to
that block's end (exactly as the source: not to the max of the two); after
the last block emit the trailing gap up to `day_end` under the same rule.
`gap_duration >= min_duration` (minutes, float) is modelled exactly as a
microsecond comparison. -/
def sweepGaps (min_duration : Int) (day_end : PyDateTime) :
    PyDateTime → List Inst → List (PyDateTime × PyDateTime)
  | slot_start, [] =>
    if dtLt slot_start day_end ∧ minuteMicros * min_duration ≤ subDt day_end slot_start then
      [(slot_start, day_end)]
    else []
  | slot_start, (bs, be, _) :: rest =>
    (if dtLt slot_start bs ∧ minuteMicros * min_duration ≤ subDt bs slot_start then
      [(slot_start, bs)]
     else []) ++ sweepGaps min_duration day_end be rest

/-- The day iteration of `Calendar.find_free_slots`
(`while current.date() < end_date.date()`), fuelled.  Each day's work
window is `[date@work_start, date@work_end)` (`work_start`/`work_end` are
Python `time` values, modelled as microsecond-of-day). -/
def freeSlotsLoop (cal : Calendar) (end_date : PyDateTime) (min_duration : Int)
    (work_start work_end : Int) (fuelE : Nat) :
    Nat → PyDateTime → PyResult (List (PyDateTime × PyDateTime))
  | 0, _ => .fuelOut
  | fuelD + 1, current =>
    if dateLt current end_date then
      match get_events_for_range cal
          ⟨current.year, current.month, current.day, work_start⟩
          ⟨current.year, current.month, current.day, work_end⟩ fuelE with
      | .ok busy =>
        match freeSlotsLoop cal end_date min_duration work_start work_end fuelE fuelD
            (addDays 1 current) with
        | .ok rest =>
          .ok (sweepGaps min_duration
                ⟨current.year, current.month, current.day, work_end⟩
                ⟨current.year, current.month, current.day, work_start⟩
                (sortByKey instKey busy) ++ rest)
        | .err => .err
        | .fuelOut => .fuelOut
      | .err => .err
      | .fuelOut => .fuelOut
    else .ok []

/-- `Calendar.find_free_slots`. -/
def find_free_slots (cal : Calendar) (start_date end_date : PyDateTime)
    (min_duration : Int) (work_start work_end : Int) (fuelE fuelD : Nat) :
    PyResult (List (PyDateTime × PyDateTime)) :=
  freeSlotsLoop cal end_date min_duration work_start work_end fuelE fuelD start_date

-- ============================================================
-- Statistics (`Calendar.get_statistics`)
-- ============================================================

/-- `type_counts[event_type] += 1` on Python's insertion-ordered dict. -/
def bumpCount (ty : String) : List (String × Nat) → List (String × Nat)
  | [] => [(ty, 1)]
  | (k, n) :: rest => if k = ty then (k, n + 1) :: rest else (k, n) :: bumpCount ty rest

/-- The dict returned by `Calendar.get_statistics`.  The zero-occurrence
branch of the source returns the key `average_duration` while the other
branch returns `average_duration_minutes`; both are modelled by the single
field `average_duration`. -/
structure Stats where
  total_events : Nat
  total_hours : ℚ
  average_duration : ℚ
  events_by_type : List (String × Nat)
deriving DecidableEq

/-- Sum of instance durations in minutes (`(end-start).total_seconds()/60`),
kept exact as a rational. -/
def sumMinutes (l : List Inst) : ℚ :=
  (l.map (fun p => ((subDt p.2.1 p.1 : ℚ) / 60000000))).sum

/-- The count-by-type loop of `get_statistics`. -/
def countTypes (l : List Inst) : List (String × Nat) :=
  l.foldl (fun acc p => bumpCount p.2.2.event_type acc) []

/-- `Calendar.get_statistics`.  Python's `round(x, 2)` / `round(x, 0)` on
floats is modelled by rounding the exact rational (half-to-even versus
half-up differs only at exact ties, which no claim depends on). -/
def get_statistics (cal : Calendar) (start rangeEnd : PyDateTime)
    (fuel : Nat) : PyResult Stats :=
  match get_events_for_range cal start rangeEnd fuel with
  | .ok instances =>
    if instances = [] then
      .ok { total_events := 0, total_hours := 0, average_duration := 0, events_by_type := [] }
    else
      .ok { total_events := instances.length,
            total_hours := (round (sumMinutes instances / 60 * 100) : ℚ) / 100,
            average_duration := (round (sumMinutes instances / instances.length) : ℚ),
            events_by_type := countTypes instances }
  | .err => .err
  | .fuelOut => .fuelOut

-- ============================================================
-- Store layer (`CalendarManager` over MongoDB)
-- ============================================================

/-- One document of the `calendar_events` collection (the `created_at`
field is never read back and is omitted). -/
structure EventDoc where
  id : String
  user_id : String
  title : String
  start_time : PyDateTime
  end_time : PyDateTime
  event_type : String
  location : Option String
  description : Option String
  color : String
  recurrence : String
  recurrence_end_date : Option PyDateTime
  reminders : List Int
deriving DecidableEq

/-- The `{'_id': ObjectId(event_id), 'user_id': user_id}` filter. -/
def docMatches (eid uid : String) (d : EventDoc) : Bool :=
  d.id == eid && d.user_id == uid

/-- `find_one` on the collection. -/
def findDoc (store : List EventDoc) (eid uid : String) : Option EventDoc :=
  store.find? (docMatches eid uid)

/-- `update_one`: rewrite the first matching document. -/
def modifyFirst (p : EventDoc → Bool) (f : EventDoc → EventDoc) :
    List EventDoc → List EventDoc
  | [] => []
  | d :: ds => if p d then f d :: ds else d :: modifyFirst p f ds

/-- `CalendarManager.get_user_events` with no range: all of the user's
documents, Mongo-sorted by `start_time`. -/
def get_user_events (store : List EventDoc) (uid : String) : List EventDoc :=
  sortByKey (fun d => toMicro d.start_time) (store.filter (fun d => d.user_id == uid))

/-- The per-document load of `load_user_calendar`: construct a
`CalendarEvent`; a document whose construction raises is skipped
(`except ... continue`). -/
def loadEvents : List EventDoc → List CalendarEvent
  | [] => []
  | d :: ds =>
    match mkCalendarEvent d.id d.user_id d.title d.start_time d.end_time d.event_type
        d.location d.description d.color d.recurrence d.recurrence_end_date
        (some d.reminders) with
    | .ok ev => ev :: loadEvents ds
    | .error _ => loadEvents ds

/-- `CalendarManager.load_user_calendar`. -/
def load_user_calendar (store : List EventDoc) (uid : String) : Calendar :=
  ⟨uid, loadEvents (get_user_events store uid)⟩

/-- Result dict of a manager mutation (`{'success': True/False, ...}`).
`fuelOut` is the model's marker for an undecided fuelled computation. -/
inductive OpResult where
  | success (info : String)
  | failure (error : String)
  | fuelOut
deriving DecidableEq

/-- The `event_data` dict passed to `create_event`.  The four required
fields are present by typing (the missing-field early return is not
modelled); the optional ones mirror `event_data.get(...)`. -/
structure EventData where
  title : String
  start_time : PyDateTime
  end_time : PyDateTime
  event_type : String
  location : Option String := none
  description : Option String := none
  color : Option String := none
  recurrence : Option String := none
  recurrence_end_date : Option PyDateTime := none
  reminders : Option (List Int) := none

/-- `CalendarManager.create_event`.  Note the source's quirk, kept here:
the conflict check runs only when the incoming dict holds the key
`recurrence` with value exactly `'none'` (`event_data.get('recurrence') ==
'none'`), while the stored document defaults an absent key to `'none'`. -/
def create_event (store : List EventDoc) (newId user_id : String) (d : EventData)
    (fuel : Nat) : OpResult × List EventDoc :=
  if dtLe d.end_time d.start_time then
    (.failure "Start time must be before end time", store)
  else
    let doc : EventDoc :=
      { id := newId, user_id := user_id, title := d.title,
        start_time := d.start_time, end_time := d.end_time,
        event_type := d.event_type, location := d.location,
        description := d.description, color := d.color.getD "#3498db",
        recurrence := d.recurrence.getD "none",
        recurrence_end_date := d.recurrence_end_date,
        reminders := d.reminders.getD [15, 60] }
    if d.recurrence = some "none" then
      match check_availability (load_user_calendar store user_id) d.start_time
          d.end_time fuel with
      | .ok true => (.success newId, store ++ [doc])
      | .ok false => (.failure "Time slot conflicts with existing event", store)
      | .err => (.failure "exception", store)
      | .fuelOut => (.fuelOut, store)
    else (.success newId, store ++ [doc])

/-- The `update_data` dict of `update_event` (the fields the claims
exercise). -/
structure UpdateData where
  title : Option String := none
  start_time : Option PyDateTime := none
  end_time : Option PyDateTime := none
  recurrence_end_date : Option PyDateTime := none

/-- `$set` of the given fields on a document. -/
def applyUpdate (u : UpdateData) (d : EventDoc) : EventDoc :=
  { d with
    title := u.title.getD d.title,
    start_time := u.start_time.getD d.start_time,
    end_time := u.end_time.getD d.end_time,
    recurrence_end_date :=
      match u.recurrence_end_date with
      | some r => some r
      | none => d.recurrence_end_date }

/-- `CalendarManager.update_event`: when a time field changes, the new
interval is checked against the user's *full* calendar as loaded from the
store — which still contains the event being updated. -/
def update_event (store : List EventDoc) (eid uid : String) (u : UpdateData)
    (fuel : Nat) : OpResult × List EventDoc :=
  match findDoc store eid uid with
  | none => (.failure "Event not found", store)
  | some cur =>
    if u.start_time.isSome || u.end_time.isSome then
      let new_start := u.start_time.getD cur.start_time
      let new_end := u.end_time.getD cur.end_time
      match check_availability (load_user_calendar store uid) new_start new_end fuel with
      | .ok true => (.success "", modifyFirst (docMatches eid uid) (applyUpdate u) store)
      | .ok false => (.failure "New time conflicts with existing event", store)
      | .err => (.failure "exception", store)
      | .fuelOut => (.fuelOut, store)
    else (.success "", modifyFirst (docMatches eid uid) (applyUpdate u) store)

/-- `CalendarManager.delete_event`.  With `delete_future=True` and a
recurring event: a boundary at or before the series start deletes the
document; a later boundary truncates `recurrence_end_date` to
`from_date - timedelta(microseconds=1)`.  `from_date=None` defaults to the
injected `now`.  (The source reports plain deletes with no match as
`{'success': False}`; all non-raising outcomes are modelled as
`success`.) -/
def delete_event (store : List EventDoc) (eid uid : String) (delete_future : Bool)
    (from_date : Option PyDateTime) (now : PyDateTime) : OpResult × List EventDoc :=
  if delete_future then
    let fd := from_date.getD now
    match findDoc store eid uid with
    | none => (.failure "Event not found", store)
    | some ev =>
      if ev.recurrence = "none" then
        (.success "", store.eraseP (docMatches eid uid))
      else if dtLe fd ev.start_time then
        (.success "", store.eraseP (docMatches eid uid))
      else
        (.success "", modifyFirst (docMatches eid uid)
          (fun d => { d with recurrence_end_date := some (addMicros fd (-1)) }) store)
  else
    (.success "", store.eraseP (docMatches eid uid))

-- ============================================================
-- Facts about the stable sort
-- ============================================================

theorem mem_insertByKey {α : Type} (key : α → Int) (x a : α) (l : List α) :
    a ∈ insertByKey key x l ↔ a = x ∨ a ∈ l := by
  induction l with
  | nil => simp [insertByKey]
  | cons y ys ih =>
    unfold insertByKey
    split
    · simp [List.mem_cons]
    · simp [List.mem_cons, ih]
      tauto

theorem mem_sortByKey {α : Type} (key : α → Int) (a : α) (l : List α) :
    a ∈ sortByKey key l ↔ a ∈ l := by
  induction l with
  | nil => simp [sortByKey]
  | cons y ys ih =>
    unfold sortByKey
    rw [mem_insertByKey]
    simp [List.mem_cons, ih]

theorem pairwise_insertByKey {α : Type} (key : α → Int) (x : α) (l : List α)
    (h : l.Pairwise (fun a b => key a ≤ key b)) :
    (insertByKey key x l).Pairwise (fun a b => key a ≤ key b) := by
  induction l with
  | nil => simp [insertByKey]
  | cons y ys ih =>
    rw [List.pairwise_cons] at h
    unfold insertByKey
    split
    case isTrue hxy =>
      rw [List.pairwise_cons]
      refine ⟨?_, List.pairwise_cons.mpr h⟩
      intro b hb
      rcases List.mem_cons.mp hb with hby | hbys
      · subst hby; exact hxy
      · exact le_trans hxy (h.1 b hbys)
    case isFalse hxy =>
      rw [List.pairwise_cons]
      refine ⟨?_, ih h.2⟩
      intro b hb
      rcases (mem_insertByKey key x b ys).mp hb with hbx | hbys
      · subst hbx; omega
      · exact h.1 b hbys

theorem pairwise_sortByKey {α : Type} (key : α → Int) (l : List α) :
    (sortByKey key l).Pairwise (fun a b => key a ≤ key b) := by
  induction l with
  | nil => simp [sortByKey]
  | cons y ys ih =>
    unfold sortByKey
    exact pairwise_insertByKey key y _ ih

-- ============================================================
-- Facts about one expansion step
-- ============================================================

theorem toordinal3_nextMonth (y m d : Int) (h1 : 1 ≤ m) (h2 : m ≤ 11) :
    toordinal3 y m d < toordinal3 y (m + 1) d := by
  unfold toordinal3 daysBeforeMonth
  interval_cases m <;> cases hL : isLeap y <;> simp [hL] <;> omega

theorem toordinal3_nextYearJan (y d : Int) :
    toordinal3 y 12 d < toordinal3 (y + 1) 1 d := by
  unfold toordinal3 daysBeforeMonth isLeap
  norm_num
  cases h4 : y % 4 == 0 <;> cases h100 : y % 100 != 0 <;> cases h400 : y % 400 == 0 <;>
    simp_all <;> omega

/-- The recurrence tags for which the expansion loop has an advancing
branch. -/
def recognizedRec (recurrence : String) : Prop :=
  recurrence = "daily" ∨ recurrence = "weekly" ∨ recurrence = "biweekly"
    ∨ recurrence = "monthly"

instance (recurrence : String) : Decidable (recognizedRec recurrence) := by
  unfold recognizedRec; infer_instance

theorem monthRoll_facts (c u : PyDateTime) (h : ValidDT c)
    (hs : monthRoll c = some u) : ValidDT u ∧ toMicro c < toMicro u := by
  obtain ⟨hv1, hv2, hv3, hv4, hv5, hv6⟩ := h
  unfold monthRoll at hs
  by_cases h12 : c.month = 12
  · rw [if_pos h12] at hs
    by_cases hday : c.day ≤ daysInMonth (c.year + 1) 1
    · rw [if_pos hday] at hs
      cases hs
      constructor
      · unfold ValidDT
        dsimp only
        exact ⟨by norm_num, by norm_num, hv3, hday, hv5, hv6⟩
      · unfold toMicro toordinal
        dsimp only
        rw [h12]
        have hord := toordinal3_nextYearJan c.year c.day
        unfold microsPerDay
        omega
    · rw [if_neg hday] at hs
      cases hs
  · rw [if_neg h12] at hs
    by_cases hday : c.day ≤ daysInMonth c.year (c.month + 1)
    · rw [if_pos hday] at hs
      cases hs
      constructor
      · unfold ValidDT
        dsimp only
        exact ⟨by omega, by omega, hv3, hday, hv5, hv6⟩
      · unfold toMicro toordinal
        dsimp only
        have hord := toordinal3_nextMonth c.year c.month c.day hv1 (by omega)
        unfold microsPerDay
        omega
    · rw [if_neg hday] at hs
      cases hs

theorem expandStep_mono (recurrence : String) (c u : PyDateTime) (h : ValidDT c)
    (hs : expandStep recurrence c = some u) : ValidDT u ∧ toMicro c ≤ toMicro u := by
  unfold expandStep at hs
  split_ifs at hs with h1 h2 h3 h4
  · obtain ⟨hv, hm⟩ := toMicro_addDays 1 c h (by norm_num)
    cases hs
    exact ⟨hv, by rw [hm]; unfold microsPerDay; omega⟩
  · obtain ⟨hv, hm⟩ := toMicro_addDays 7 c h (by norm_num)
    cases hs
    exact ⟨hv, by rw [hm]; unfold microsPerDay; omega⟩
  · obtain ⟨hv, hm⟩ := toMicro_addDays 14 c h (by norm_num)
    cases hs
    exact ⟨hv, by rw [hm]; unfold microsPerDay; omega⟩
  · obtain ⟨hv, hm⟩ := monthRoll_facts c u h hs
    exact ⟨hv, le_of_lt hm⟩
  · cases hs
    exact ⟨h, le_refl _⟩

theorem expandStep_strict (recurrence : String) (c u : PyDateTime) (h : ValidDT c)
    (hr : recognizedRec recurrence) (hs : expandStep recurrence c = some u) :
    ValidDT u ∧ toMicro c < toMicro u := by
  unfold expandStep at hs
  split_ifs at hs with h1 h2 h3 h4
  · obtain ⟨hv, hm⟩ := toMicro_addDays 1 c h (by norm_num)
    cases hs
    exact ⟨hv, by rw [hm]; unfold microsPerDay; omega⟩
  · obtain ⟨hv, hm⟩ := toMicro_addDays 7 c h (by norm_num)
    cases hs
    exact ⟨hv, by rw [hm]; unfold microsPerDay; omega⟩
  · obtain ⟨hv, hm⟩ := toMicro_addDays 14 c h (by norm_num)
    cases hs
    exact ⟨hv, by rw [hm]; unfold microsPerDay; omega⟩
  · exact monthRoll_facts c u h hs
  · exfalso
    unfold recognizedRec at hr
    tauto

-- ============================================================
-- Facts about the expansion loop
-- ============================================================

theorem expandLoop_acc_sub (recurrence : String) (s lim e : PyDateTime) (dur : Int) :
    ∀ (fuel : Nat) (c : PyDateTime) (acc l : List (PyDateTime × PyDateTime)),
      expandLoop recurrence s lim e dur fuel c acc = .ok l → acc ⊆ l := by
  intro fuel
  induction fuel with
  | zero =>
    intro c acc l hok
    simp [expandLoop] at hok
  | succ n ih =>
    intro c acc l hok
    unfold expandLoop at hok
    split at hok
    case isTrue hguard =>
      cases hstep : expandStep recurrence c with
      | none => rw [hstep] at hok; cases hok
      | some c2 =>
        rw [hstep] at hok
        have hsub := ih c2 _ l hok
        intro p hp
        apply hsub
        split
        · exact List.mem_append_left _ hp
        · exact hp
    case isFalse =>
      cases hok
      exact fun p hp => hp

theorem expandLoop_ok_mem (recurrence : String) (s lim e : PyDateTime) (dur : Int) :
    ∀ (fuel : Nat) (c : PyDateTime) (acc l : List (PyDateTime × PyDateTime)),
      ValidDT c →
      expandLoop recurrence s lim e dur fuel c acc = .ok l →
      ∀ p ∈ l, p ∈ acc ∨
        (ValidDT p.1 ∧ toMicro c ≤ toMicro p.1 ∧ dtLe s p.1 ∧ dtLt p.1 e ∧ dtLt p.1 lim
          ∧ p.2 = addMicros p.1 dur) := by
  intro fuel
  induction fuel with
  | zero =>
    intro c acc l hv hok
    simp [expandLoop] at hok
  | succ n ih =>
    intro c acc l hv hok
    unfold expandLoop at hok
    split at hok
    case isTrue hguard =>
      cases hstep : expandStep recurrence c with
      | none => rw [hstep] at hok; cases hok
      | some c2 =>
        rw [hstep] at hok
        obtain ⟨hv2, hle2⟩ := expandStep_mono recurrence c c2 hv hstep
        intro p hp
        rcases ih c2 _ l hv2 hok p hp with hacc | hnew
        · -- p came from the (possibly extended) accumulator
          by_cases hemit : dtLe s c
          · rw [if_pos hemit] at hacc
            rcases List.mem_append.mp hacc with hold | hthis
            · exact Or.inl hold
            · right
              have hpe : p = (c, addMicros c dur) := by simpa using hthis
              subst hpe
              exact ⟨hv, le_refl _, hemit, hguard.2, hguard.1, rfl⟩
          · rw [if_neg hemit] at hacc
            exact Or.inl hacc
        · right
          obtain ⟨ha, hb, hc, hd, he, hf⟩ := hnew
          exact ⟨ha, le_trans hle2 hb, hc, hd, he, hf⟩
    case isFalse =>
      cases hok
      intro p hp
      exact Or.inl hp

theorem expandLoop_no_fuelOut (recurrence : String)
    (hr : recognizedRec recurrence) (s lim e : PyDateTime) (dur : Int) :
    ∀ (fuel : Nat) (c : PyDateTime) (acc : List (PyDateTime × PyDateTime)),
      ValidDT c →
      (toMicro e - toMicro c).toNat < fuel →
      expandLoop recurrence s lim e dur fuel c acc ≠ .fuelOut := by
  intro fuel
  induction fuel with
  | zero =>
    intro c acc _ hb
    omega
  | succ n ih =>
    intro c acc hv hb
    unfold expandLoop
    split
    case isTrue hguard =>
      cases hstep : expandStep recurrence c with
      | none => simp
      | some c2 =>
        obtain ⟨hv2, hlt2⟩ := expandStep_strict recurrence c c2 hv hr hstep
        apply ih c2 _ hv2
        have hce : toMicro c < toMicro e := hguard.2
        omega
    case isFalse => simp

theorem expandLoop_stuck (recurrence : String) (hr : ¬ recognizedRec recurrence)
    (s lim e : PyDateTime) (dur : Int) (c : PyDateTime)
    (hc1 : dtLt c lim) (hc2 : dtLt c e) :
    ∀ (fuel : Nat) (acc : List (PyDateTime × PyDateTime)),
      expandLoop recurrence s lim e dur fuel c acc = .fuelOut := by
  have hstep : expandStep recurrence c = some c := by
    unfold recognizedRec at hr
    push_neg at hr
    unfold expandStep
    rw [if_neg hr.1, if_neg hr.2.1, if_neg hr.2.2.1, if_neg hr.2.2.2]
  intro fuel
  induction fuel with
  | zero => intro acc; rfl
  | succ n ih =>
    intro acc
    unfold expandLoop
    rw [if_pos ⟨hc1, hc2⟩, hstep]
    exact ih _

-- ============================================================
-- Facts about `expand_recurring_event` and `get_events_for_range`
-- ============================================================

/-- All the per-instance facts about an occurrence emitted by
`expand_recurring_event`: its start lies in `[start, rangeEnd)`, it is a
valid datetime, its duration equals the event's own duration, and (for a
recurring event) its start is strictly before the rule's end date. -/
theorem expand_ok_mem (ev : CalendarEvent) (s e : PyDateTime) (fuel : Nat)
    (l : List (PyDateTime × PyDateTime)) (hv : ValidEvent ev)
    (hok : expand_recurring_event ev s e fuel = .ok l) :
    ∀ p ∈ l, dtLe s p.1 ∧ dtLt p.1 e ∧ ValidDT p.1 ∧
      subDt p.2 p.1 = subDt ev.end_time ev.start_time ∧ dtLt p.1 p.2 ∧
      (∀ r, ev.recurrence_end_date = some r → ev.recurrence ≠ "none" → dtLt p.1 r) := by
  obtain ⟨hvs, hve, hlt⟩ := hv
  have hdur : 0 < subDt ev.end_time ev.start_time := by
    unfold subDt
    unfold dtLt at hlt
    omega
  unfold expand_recurring_event at hok
  split at hok
  case isTrue hnone =>
    intro p hp
    cases hok
    split at hp
    case isTrue hcond =>
      have hpe : p = (ev.start_time, ev.end_time) := by simpa using hp
      subst hpe
      refine ⟨hcond.1, hcond.2, hvs, rfl, hlt, ?_⟩
      intro r _ hne
      exact absurd hnone hne
    case isFalse => simp at hp
  case isFalse hrec =>
    intro p hp
    rcases expandLoop_ok_mem ev.recurrence s (ev.recurrence_end_date.getD e) e
        (subDt ev.end_time ev.start_time) fuel ev.start_time [] l hvs hok p hp with
      habs | ⟨hpv, _, hs, he, hlim, hp2⟩
    · simp at habs
    · obtain ⟨hva, hma⟩ := toMicro_addMicros p.1 (subDt ev.end_time ev.start_time) hpv
        (le_of_lt hdur)
      refine ⟨hs, he, hpv, ?_, ?_, ?_⟩
      · rw [hp2]
        unfold subDt at hma ⊢
        omega
      · rw [hp2]
        unfold dtLt
        omega
      · intro r hr _
        rw [hr] at hlim
        exact hlim

/-- Per-instance facts for `gatherInstances` over a list of events. -/
theorem gatherInstances_mem (s e : PyDateTime) (fuel : Nat) :
    ∀ (evs : List CalendarEvent) (l : List Inst),
      (∀ ev ∈ evs, ValidEvent ev) →
      gatherInstances s e fuel evs = .ok l →
      ∀ q ∈ l, dtLe s q.1 ∧ dtLt q.1 e ∧ ValidDT q.1 ∧
        subDt q.2.1 q.1 = subDt q.2.2.end_time q.2.2.start_time ∧ dtLt q.1 q.2.1 := by
  intro evs
  induction evs with
  | nil =>
    intro l _ hok q hq
    cases hok
    simp at hq
  | cons ev rest ih =>
    intro l hval hok q hq
    unfold gatherInstances at hok
    cases hexp : expand_recurring_event ev s e fuel with
    | ok ts =>
      rw [hexp] at hok
      cases hrest : gatherInstances s e fuel rest with
      | ok others =>
        rw [hrest] at hok
        cases hok
        rcases List.mem_append.mp hq with hmap | hoth
        · obtain ⟨p, hp, hqp⟩ := List.mem_map.mp hmap
          obtain ⟨h1, h2, h3, h4, h5, _⟩ :=
            expand_ok_mem ev s e fuel ts (hval ev (List.mem_cons_self ev rest)) hexp p hp
          subst hqp
          exact ⟨h1, h2, h3, h4, h5⟩
        · exact ih others (fun x hx => hval x (List.mem_cons_of_mem ev hx)) hrest q hoth
      | err => rw [hrest] at hok; cases hok
      | fuelOut => rw [hrest] at hok; cases hok
    | err => rw [hexp] at hok; cases hok
    | fuelOut => rw [hexp] at hok; cases hok

/-- Per-instance facts for the sorted window query
`Calendar.get_events_for_range`. -/
theorem ger_mem (cal : Calendar) (s e : PyDateTime) (fuel : Nat) (l : List Inst)
    (hval : ∀ ev ∈ cal.events, ValidEvent ev)
    (hok : get_events_for_range cal s e fuel = .ok l) :
    ∀ q ∈ l, dtLe s q.1 ∧ dtLt q.1 e ∧ ValidDT q.1 ∧
      subDt q.2.1 q.1 = subDt q.2.2.end_time q.2.2.start_time ∧ dtLt q.1 q.2.1 := by
  unfold get_events_for_range at hok
  cases hg : gatherInstances s e fuel cal.events with
  | ok raw =>
    rw [hg] at hok
    cases hok
    intro q hq
    exact gatherInstances_mem s e fuel cal.events raw hval hg q
      ((mem_sortByKey instKey q raw).mp hq)
  | err => rw [hg] at hok; cases hok
  | fuelOut => rw [hg] at hok; cases hok

theorem availLoop_false_iff (s e : PyDateTime) (l : List Inst) :
    availLoop s e l = false ↔ ∃ q ∈ l, dtLt s q.2.1 ∧ dtLt q.1 e := by
  induction l with
  | nil => simp [availLoop]
  | cons q rest ih =>
    obtain ⟨qs, qe, qev⟩ := q
    unfold availLoop
    split
    case isTrue hconf =>
      simp only [List.mem_cons]
      constructor
      · intro _
        exact ⟨(qs, qe, qev), Or.inl rfl, hconf⟩
      · intro _
        trivial
    case isFalse hconf =>
      rw [ih]
      constructor
      · rintro ⟨x, hx, hc⟩
        exact ⟨x, List.mem_cons_of_mem _ hx, hc⟩
      · rintro ⟨x, hx, hc⟩
        rcases List.mem_cons.mp hx with hxq | hxr
        · subst hxq
          exact absurd hc hconf
        · exact ⟨x, hxr, hc⟩

-- ============================================================
-- Facts about the free-slot sweep
-- ============================================================

theorem addDays_one (t : PyDateTime) : addDays 1 t = nextDate t := by
  unfold addDays
  norm_num

theorem sweepGaps_mem (min_duration : Int) (day_end : PyDateTime) :
    ∀ (busy : List Inst) (ss : PyDateTime) (lo : Int),
      lo ≤ toMicro ss →
      (∀ q ∈ busy,
        lo ≤ toMicro q.1 ∧ toMicro q.1 < toMicro day_end ∧ toMicro q.1 < toMicro q.2.1) →
      ∀ g ∈ sweepGaps min_duration day_end ss busy,
        lo ≤ toMicro g.1 ∧ toMicro g.1 < toMicro g.2 ∧ toMicro g.2 ≤ toMicro day_end ∧
          minuteMicros * min_duration ≤ toMicro g.2 - toMicro g.1 := by
  intro busy
  induction busy with
  | nil =>
    intro ss lo hlo hb g hg
    unfold sweepGaps at hg
    split at hg
    case isTrue hcond =>
      have hge : g = (ss, day_end) := by simpa using hg
      subst hge
      obtain ⟨hc1, hc2⟩ := hcond
      unfold dtLt at hc1
      unfold subDt at hc2
      exact ⟨hlo, hc1, le_refl _, hc2⟩
    case isFalse => simp at hg
  | cons q rest ih =>
    intro ss lo hlo hb g hg
    obtain ⟨bs, be, qev⟩ := q
    unfold sweepGaps at hg
    rcases List.mem_append.mp hg with hleft | hright
    · split at hleft
      case isTrue hcond =>
        have hge : g = (ss, bs) := by simpa using hleft
        subst hge
        obtain ⟨hc1, hc2⟩ := hcond
        unfold dtLt at hc1
        unfold subDt at hc2
        have hhead := hb (bs, be, qev) (List.mem_cons_self _ _)
        exact ⟨hlo, hc1, le_of_lt hhead.2.1, hc2⟩
      case isFalse => simp at hleft
    · have hhead := hb (bs, be, qev) (List.mem_cons_self _ _)
      exact ih be lo (by have := hhead.2.2; have := hhead.1; dsimp only at *; omega)
        (fun x hx => hb x (List.mem_cons_of_mem _ hx)) g hright

theorem sweepGaps_start_lb (min_duration : Int) (day_end : PyDateTime) :
    ∀ (busy : List Inst) (ss : PyDateTime) (lo : Int),
      lo ≤ toMicro ss →
      (∀ q ∈ busy, lo ≤ toMicro q.2.1) →
      ∀ g ∈ sweepGaps min_duration day_end ss busy, lo ≤ toMicro g.1 := by
  intro busy
  induction busy with
  | nil =>
    intro ss lo hlo hb g hg
    unfold sweepGaps at hg
    split at hg
    · have hge : g = (ss, day_end) := by simpa using hg
      subst hge
      exact hlo
    · simp at hg
  | cons q rest ih =>
    intro ss lo hlo hb g hg
    obtain ⟨bs, be, qev⟩ := q
    unfold sweepGaps at hg
    rcases List.mem_append.mp hg with hleft | hright
    · split at hleft
      · have hge : g = (ss, bs) := by simpa using hleft
        subst hge
        exact hlo
      · simp at hleft
    · exact ih be lo (hb (bs, be, qev) (List.mem_cons_self _ _))
        (fun x hx => hb x (List.mem_cons_of_mem _ hx)) g hright

theorem sweepGaps_pairwise (min_duration : Int) (day_end : PyDateTime) :
    ∀ (busy : List Inst) (ss : PyDateTime),
      (∀ q ∈ busy, toMicro q.1 < toMicro q.2.1) →
      busy.Pairwise (fun a b => instKey a ≤ instKey b) →
      (sweepGaps min_duration day_end ss busy).Pairwise
        (fun g h => toMicro g.2 ≤ toMicro h.1) := by
  intro busy
  induction busy with
  | nil =>
    intro ss _ _
    unfold sweepGaps
    split
    · simp
    · simp
  | cons q rest ih =>
    intro ss hpos hsorted
    obtain ⟨bs, be, qev⟩ := q
    rw [List.pairwise_cons] at hsorted
    unfold sweepGaps
    rw [List.pairwise_append]
    refine ⟨?_, ?_, ?_⟩
    · split
      · simp
      · simp
    · exact ih be (fun x hx => hpos x (List.mem_cons_of_mem _ hx)) hsorted.2
    · intro g hg h hh
      have hge : g = (ss, bs) := by
        split at hg
        · simpa using hg
        · simp at hg
      subst hge
      have hbe : toMicro (bs, be, qev).1 < toMicro (bs, be, qev).2.1 :=
        hpos _ (List.mem_cons_self _ _)
      dsimp only at hbe
      refine sweepGaps_start_lb min_duration day_end rest be (toMicro bs)
        (le_of_lt hbe) ?_ h hh
      intro x hx
      have hkey := hsorted.1 x hx
      unfold instKey at hkey
      have hxpos := hpos x (List.mem_cons_of_mem _ hx)
      dsimp only at hkey
      omega

-- ============================================================
-- Facts about the day loop of `find_free_slots`
-- ============================================================

theorem freeSlotsLoop_props (cal : Calendar) (end_date : PyDateTime)
    (min_duration work_start work_end : Int) (fuelE : Nat)
    (hcal : ∀ ev ∈ cal.events, ValidEvent ev)
    (hws : 0 ≤ work_start) (hwe : work_end < microsPerDay) :
    ∀ (fuelD : Nat) (current : PyDateTime) (l : List (PyDateTime × PyDateTime)),
      ValidDT current →
      freeSlotsLoop cal end_date min_duration work_start work_end fuelE fuelD current
        = .ok l →
      (∀ g ∈ l, toordinal current * microsPerDay + work_start ≤ toMicro g.1) ∧
      (∀ g ∈ l, toMicro g.1 < toMicro g.2 ∧
        minuteMicros * min_duration ≤ toMicro g.2 - toMicro g.1 ∧
        ∃ y m d : Int,
          toMicro (PyDateTime.mk y m d work_start) ≤ toMicro g.1 ∧
          toMicro g.2 ≤ toMicro (PyDateTime.mk y m d work_end)) ∧
      l.Pairwise (fun g h => toMicro g.2 ≤ toMicro h.1) := by
  intro fuelD
  induction fuelD with
  | zero =>
    intro current l _ hok
    simp [freeSlotsLoop] at hok
  | succ n ih =>
    intro current l hv hok
    unfold freeSlotsLoop at hok
    split at hok
    case isFalse =>
      cases hok
      refine ⟨?_, ?_, ?_⟩ <;> simp
    case isTrue hday =>
      cases hger : get_events_for_range cal
          ⟨current.year, current.month, current.day, work_start⟩
          ⟨current.year, current.month, current.day, work_end⟩ fuelE with
      | err => rw [hger] at hok; cases hok
      | fuelOut => rw [hger] at hok; cases hok
      | ok busy =>
        rw [hger] at hok
        cases hrest : freeSlotsLoop cal end_date min_duration work_start work_end
            fuelE n (addDays 1 current) with
        | err => rw [hrest] at hok; cases hok
        | fuelOut => rw [hrest] at hok; cases hok
        | ok rest =>
          rw [hrest] at hok
          cases hok
          -- facts about the sorted busy list
          have hbusy : ∀ q ∈ sortByKey instKey busy,
              toMicro (PyDateTime.mk current.year current.month current.day work_start)
                  ≤ toMicro q.1 ∧
              toMicro q.1 <
                toMicro (PyDateTime.mk current.year current.month current.day work_end) ∧
              toMicro q.1 < toMicro q.2.1 := by
            intro q hq
            obtain ⟨h1, h2, _, _, h5⟩ := ger_mem cal _ _ fuelE busy hcal hger q
              ((mem_sortByKey instKey q busy).mp hq)
            unfold dtLe at h1
            unfold dtLt at h2 h5
            exact ⟨h1, h2, h5⟩
          have hgaps := sweepGaps_mem min_duration
            ⟨current.year, current.month, current.day, work_end⟩
            (sortByKey instKey busy)
            ⟨current.year, current.month, current.day, work_start⟩
            (toMicro ⟨current.year, current.month, current.day, work_start⟩)
            (le_refl _) hbusy
          have hgapsPW := sweepGaps_pairwise min_duration
            ⟨current.year, current.month, current.day, work_end⟩
            (sortByKey instKey busy)
            ⟨current.year, current.month, current.day, work_start⟩
            (fun q hq => (hbusy q hq).2.2)
            (pairwise_sortByKey instKey busy)
          -- facts about the remaining days
          have hvnext : ValidDT (addDays 1 current) := by
            rw [addDays_one]
            exact validDT_nextDate current hv
          have hordnext : toordinal (addDays 1 current) = toordinal current + 1 := by
            rw [addDays_one]
            exact toordinal_nextDate current hv
          obtain ⟨ihLB, ihGap, ihPW⟩ := ih (addDays 1 current) rest hvnext hrest
          have hdayS : toMicro (PyDateTime.mk current.year current.month current.day
              work_start) = toordinal current * microsPerDay + work_start := rfl
          have hdayE : toMicro (PyDateTime.mk current.year current.month current.day
              work_end) = toordinal current * microsPerDay + work_end := rfl
          refine ⟨?_, ?_, ?_⟩
          · intro g hg
            rcases List.mem_append.mp hg with hgap | hgr
            · have := (hgaps g hgap).1
              omega
            · have := ihLB g hgr
              have hD : (0 : Int) < microsPerDay := by unfold microsPerDay; norm_num
              rw [hordnext] at this
              nlinarith [hD]
          · intro g hg
            rcases List.mem_append.mp hg with hgap | hgr
            · obtain ⟨hlo, hlt, hhi, hlen⟩ := hgaps g hgap
              exact ⟨hlt, hlen, current.year, current.month, current.day, hlo, hhi⟩
            · exact ihGap g hgr
          · rw [List.pairwise_append]
            refine ⟨hgapsPW, ihPW, ?_⟩
            intro g hg h hh
            have hup := (hgaps g hg).2.2.1
            have hlb := ihLB h hh
            rw [hordnext] at hlb
            simp only [microsPerDay] at *
            omega

-- ============================================================
-- Comparing expansions whose recurrence end dates differ (rule truncation)
-- ============================================================

/-- Two runs of the expansion loop from the same state that differ only in
the `limit` bound: every instance the first run emits whose start is below
the second limit is also emitted by the second run (when both runs return
normally). -/
theorem expandLoop_narrow (recurrence : String) (s e : PyDateTime) (dur : Int)
    (L1 L2 : PyDateTime) :
    ∀ (fuel : Nat) (c : PyDateTime) (acc1 acc2 l1 l2 : List (PyDateTime × PyDateTime)),
      ValidDT c →
      expandLoop recurrence s L1 e dur fuel c acc1 = .ok l1 →
      expandLoop recurrence s L2 e dur fuel c acc2 = .ok l2 →
      ∀ p ∈ l1, p ∈ acc1 ∨ ¬ dtLt p.1 L2 ∨ p ∈ l2 := by
  intro fuel
  induction fuel with
  | zero =>
    intro c acc1 acc2 l1 l2 _ hok1 _
    simp [expandLoop] at hok1
  | succ n ih =>
    intro c acc1 acc2 l1 l2 hv hok1 hok2
    unfold expandLoop at hok1 hok2
    split at hok1
    case isFalse =>
      cases hok1
      intro p hp
      exact Or.inl hp
    case isTrue hguard1 =>
      cases hstep : expandStep recurrence c with
      | none => rw [hstep] at hok1; cases hok1
      | some c2 =>
        rw [hstep] at hok1 hok2
        obtain ⟨hv2, _⟩ := expandStep_mono recurrence c c2 hv hstep
        split at hok2
        case isTrue hguard2 =>
          intro p hp
          rcases ih c2 _ _ l1 l2 hv2 hok1 hok2 p hp with hacc | hrest
          · by_cases hemit : dtLe s c
            · rw [if_pos hemit] at hacc
              rcases List.mem_append.mp hacc with hold | hthis
              · exact Or.inl hold
              · right; right
                have hsub := expandLoop_acc_sub recurrence s L2 e dur n c2 _ l2 hok2
                apply hsub
                rw [if_pos hemit]
                exact List.mem_append_right _ hthis
            · rw [if_neg hemit] at hacc
              exact Or.inl hacc
          · rcases hrest with h | h
            · exact Or.inr (Or.inl h)
            · exact Or.inr (Or.inr h)
        case isFalse hguard2 =>
          cases hok2
          intro p hp
          rcases expandLoop_ok_mem recurrence s L1 e dur (n + 1) c acc1 l1 hv
              (by
                unfold expandLoop
                rw [if_pos hguard1, hstep]
                exact hok1) p hp with hacc | ⟨_, hcp, _, _, _, _⟩
          · exact Or.inl hacc
          · right; left
            have hce : dtLt c e := hguard1.2
            have hnc : ¬ dtLt c L2 := fun hcl => hguard2 ⟨hcl, hce⟩
            unfold dtLt at hnc ⊢
            omega

-- ============================================================
-- Concrete fixtures used by witnesses and counterexamples
-- ============================================================

/-- 2024-01-01 10:00–11:00, non-recurring. -/
def cEv1 : CalendarEvent :=
  { id := "e1", user_id := "u1", title := "Lecture",
    start_time := ⟨2024, 1, 1, 36000000000⟩, end_time := ⟨2024, 1, 1, 39600000000⟩,
    event_type := "class", location := none, description := none,
    color := "#3498db", recurrence := "none", recurrence_end_date := none,
    reminders := [15, 60] }

def cCal1 : Calendar := ⟨"u1", [cEv1]⟩

/-- Daily 09:00–10:00 from 2024-01-01, rule end 2024-01-03 09:00. -/
def cEvDaily : CalendarEvent :=
  { id := "e2", user_id := "u1", title := "Standup",
    start_time := ⟨2024, 1, 1, 32400000000⟩, end_time := ⟨2024, 1, 1, 36000000000⟩,
    event_type := "meeting", location := none, description := none,
    color := "#3498db", recurrence := "daily",
    recurrence_end_date := some ⟨2024, 1, 3, 32400000000⟩, reminders := [15, 60] }

/-- An event carrying an unrecognized recurrence tag (nothing in
`CalendarEvent` construction forbids it). -/
def cEvYearly : CalendarEvent :=
  { id := "e3", user_id := "u1", title := "Anniversary",
    start_time := ⟨2024, 1, 1, 32400000000⟩, end_time := ⟨2024, 1, 1, 36000000000⟩,
    event_type := "personal", location := none, description := none,
    color := "#3498db", recurrence := "yearly", recurrence_end_date := none,
    reminders := [15, 60] }

-- ============================================================
-- Claim theorems
-- ============================================================

/-- Claim C8: `CalendarEvent` construction succeeds exactly when the start
instant is strictly before the end instant, and otherwise fails with the
`InvalidTimeRange` error (`ValueError("Start time must be before end
time")`); the construction is pure. -/
theorem c8_event_construction (id user_id title : String) (st et : PyDateTime)
    (event_type : String) (location description : Option String) (color : String)
    (recurrence : String) (red : Option PyDateTime) (rem : Option (List Int)) :
    ((∃ ev, mkCalendarEvent id user_id title st et event_type location description
        color recurrence red rem = .ok ev) ↔ dtLt st et) ∧
    (mkCalendarEvent id user_id title st et event_type location description
        color recurrence red rem = .error "Start time must be before end time"
      ↔ ¬ dtLt st et) := by
  have hiff : dtLe et st ↔ ¬ dtLt st et := by
    unfold dtLe dtLt
    omega
  unfold mkCalendarEvent
  by_cases hle : dtLe et st
  · rw [if_pos hle]
    constructor
    · constructor
      · rintro ⟨ev, hev⟩
        cases hev
      · intro hlt
        exact absurd hlt (hiff.mp hle)
    · simp [hiff.mp hle]
  · rw [if_neg hle]
    constructor
    · constructor
      · intro _
        by_contra hnlt
        exact hle (hiff.mpr hnlt)
      · intro _
        exact ⟨_, rfl⟩
    · constructor
      · intro hc
        cases hc
      · intro hnlt
        exact absurd (hiff.mpr hnlt) hle

/-- Claim C9: statistics over a range whose window query yields no
occurrences is the zeroed/empty result, not an error. -/
theorem c9_statistics_empty (cal : Calendar) (s e : PyDateTime) (fuel : Nat)
    (hok : get_events_for_range cal s e fuel = .ok []) :
    get_statistics cal s e fuel =
      .ok { total_events := 0, total_hours := 0, average_duration := 0,
            events_by_type := [] } := by
  unfold get_statistics
  rw [hok]
  rfl

theorem c9_witness :
    get_statistics ⟨"u9", []⟩ ⟨2024, 1, 1, 0⟩ ⟨2024, 2, 1, 0⟩ 3 =
      .ok { total_events := 0, total_hours := 0, average_duration := 0,
            events_by_type := [] } :=
  c9_statistics_empty ⟨"u9", []⟩ ⟨2024, 1, 1, 0⟩ ⟨2024, 2, 1, 0⟩ 3 (by decide)

/-- Claim C7: every occurrence emitted by expansion preserves the base
event's duration: occurrenceEnd − occurrenceStart = event.end − event.start. -/
theorem c7_duration_preserved (ev : CalendarEvent) (s e : PyDateTime) (fuel : Nat)
    (l : List (PyDateTime × PyDateTime)) (hv : ValidEvent ev)
    (hok : expand_recurring_event ev s e fuel = .ok l) :
    ∀ p ∈ l, subDt p.2 p.1 = subDt ev.end_time ev.start_time :=
  fun p hp => (expand_ok_mem ev s e fuel l hv hok p hp).2.2.2.1

theorem c7_witness :
    subDt (⟨2024, 1, 2, 36000000000⟩ : PyDateTime) ⟨2024, 1, 2, 32400000000⟩ =
      subDt cEvDaily.end_time cEvDaily.start_time :=
  c7_duration_preserved cEvDaily ⟨2024, 1, 1, 0⟩ ⟨2024, 1, 10, 0⟩ 20
    [(⟨2024, 1, 1, 32400000000⟩, ⟨2024, 1, 1, 36000000000⟩),
     (⟨2024, 1, 2, 32400000000⟩, ⟨2024, 1, 2, 36000000000⟩)]
    (by decide) (by decide)
    (⟨2024, 1, 2, 32400000000⟩, ⟨2024, 1, 2, 36000000000⟩) (by decide)

/-- Claim C3 counterexample: for the daily event with
`recurrence_end_date = 2024-01-03 09:00` and a window that extends past it,
stepping reaches 2024-01-03 09:00 exactly — an occurrence start equal to
the rule's end date, at or after the window start — yet that occurrence is
NOT emitted: the loop guard `current < limit` is strict, so the rule end is
exclusive, not inclusive. -/
theorem c3_counterexample :
    expand_recurring_event cEvDaily ⟨2024, 1, 1, 0⟩ ⟨2024, 1, 10, 0⟩ 20 =
      .ok [(⟨2024, 1, 1, 32400000000⟩, ⟨2024, 1, 1, 36000000000⟩),
           (⟨2024, 1, 2, 32400000000⟩, ⟨2024, 1, 2, 36000000000⟩)] ∧
    cEvDaily.recurrence_end_date = some ⟨2024, 1, 3, 32400000000⟩ ∧
    dtLe ⟨2024, 1, 1, 0⟩ (⟨2024, 1, 3, 32400000000⟩ : PyDateTime) ∧
    dtLt (⟨2024, 1, 3, 32400000000⟩ : PyDateTime) ⟨2024, 1, 10, 0⟩ ∧
    ((⟨2024, 1, 3, 32400000000⟩ : PyDateTime), (⟨2024, 1, 3, 36000000000⟩ : PyDateTime))
      ∉ [((⟨2024, 1, 1, 32400000000⟩ : PyDateTime), (⟨2024, 1, 1, 36000000000⟩ : PyDateTime)),
         ((⟨2024, 1, 2, 32400000000⟩ : PyDateTime), (⟨2024, 1, 2, 36000000000⟩ : PyDateTime))] := by
  decide

/-- Claim C3 amended: the rule's end instant is exclusive, not inclusive:
every occurrence emitted for a recurring event with a recurrence end date
starts strictly before that end date; in particular the occurrence whose
start equals the end date is not emitted. -/
theorem c3_amended (ev : CalendarEvent) (s e : PyDateTime) (fuel : Nat)
    (l : List (PyDateTime × PyDateTime)) (r : PyDateTime) (hv : ValidEvent ev)
    (hrec : ev.recurrence ≠ "none") (hr : ev.recurrence_end_date = some r)
    (hok : expand_recurring_event ev s e fuel = .ok l) :
    ∀ p ∈ l, dtLt p.1 r :=
  fun p hp => (expand_ok_mem ev s e fuel l hv hok p hp).2.2.2.2.2 r hr hrec

theorem c3_amended_witness :
    dtLt (⟨2024, 1, 2, 32400000000⟩ : PyDateTime) ⟨2024, 1, 3, 32400000000⟩ :=
  c3_amended cEvDaily ⟨2024, 1, 1, 0⟩ ⟨2024, 1, 10, 0⟩ 20
    [(⟨2024, 1, 1, 32400000000⟩, ⟨2024, 1, 1, 36000000000⟩),
     (⟨2024, 1, 2, 32400000000⟩, ⟨2024, 1, 2, 36000000000⟩)]
    ⟨2024, 1, 3, 32400000000⟩ (by decide) (by decide) (by decide) (by decide)
    (⟨2024, 1, 2, 32400000000⟩, ⟨2024, 1, 2, 36000000000⟩) (by decide)

/-- Expansion of the event over the window terminates: some fuel makes the
fuelled loop reach a decided outcome (a returned list or a raised
exception) rather than running out. -/
def ExpandTerminates (ev : CalendarEvent) (s e : PyDateTime) : Prop :=
  ∃ fuel, expand_recurring_event ev s e fuel ≠ .fuelOut

/-- Claim C6 counterexample: an event whose recurrence tag is none of the
five known tags (here "yearly" — nothing validates the tag at construction
or storage time) makes the expansion loop advance `current` by no branch at
all, so for a window ahead of the event start the loop never terminates. -/
theorem c6_counterexample :
    ¬ ExpandTerminates cEvYearly ⟨2024, 2, 1, 0⟩ ⟨2024, 3, 1, 0⟩ := by
  rintro ⟨fuel, hfuel⟩
  apply hfuel
  unfold expand_recurring_event
  rw [if_neg (by decide : ¬ (cEvYearly.recurrence = "none"))]
  exact expandLoop_stuck cEvYearly.recurrence (by decide) _ _ _ _ _
    (by decide) (by decide) fuel []

/-- Claim C6 amended: expansion terminates for every event whose
recurrence tag is one of none/daily/weekly/biweekly/monthly — the query
window end bounds the walk (and a monthly step onto an invalid date
terminates by raising).  Events with an unrecognized tag are excluded:
on them the loop never advances. -/
theorem c6_amended (ev : CalendarEvent) (s e : PyDateTime)
    (hv : ValidDT ev.start_time)
    (hrec : ev.recurrence = "none" ∨ recognizedRec ev.recurrence) :
    ExpandTerminates ev s e := by
  rcases hrec with hnone | hrec
  · refine ⟨1, ?_⟩
    unfold expand_recurring_event
    rw [if_pos hnone]
    simp
  · refine ⟨(toMicro e - toMicro ev.start_time).toNat + 1, ?_⟩
    unfold expand_recurring_event
    split
    · simp
    · exact expandLoop_no_fuelOut ev.recurrence hrec s _ e _ _ ev.start_time [] hv
        (by omega)

theorem c6_amended_witness :
    ExpandTerminates cEvDaily ⟨2024, 1, 1, 0⟩ ⟨2024, 1, 10, 0⟩ :=
  c6_amended cEvDaily ⟨2024, 1, 1, 0⟩ ⟨2024, 1, 10, 0⟩ (by decide)
    (Or.inr (by decide))

/-- Claim C1: `check_availability(start, end)` returns false exactly when
some occurrence returned by the window query for `[start, end)` overlaps
the queried interval under the half-open test
`start < occurrenceEnd ∧ end > occurrenceStart` (false on the first
conflicting occurrence found, true if none conflict). -/
theorem c1_availability_conflict_iff (cal : Calendar) (s e : PyDateTime)
    (fuel : Nat) (l : List Inst) (b : Bool)
    (hse : dtLt s e)
    (hger : get_events_for_range cal s e fuel = .ok l)
    (hav : check_availability cal s e fuel = .ok b) :
    b = false ↔ ∃ q ∈ l, dtLt s q.2.1 ∧ dtLt q.1 e := by
  unfold check_availability at hav
  rw [hger] at hav
  cases hav
  exact availLoop_false_iff s e l

theorem c1_witness :
    (false = false ↔ ∃ q ∈ ([(⟨2024, 1, 1, 36000000000⟩, ⟨2024, 1, 1, 39600000000⟩,
        cEv1)] : List Inst),
      dtLt (⟨2024, 1, 1, 34200000000⟩ : PyDateTime) q.2.1 ∧
        dtLt q.1 ⟨2024, 1, 1, 37800000000⟩) :=
  c1_availability_conflict_iff cCal1 ⟨2024, 1, 1, 34200000000⟩ ⟨2024, 1, 1, 37800000000⟩
    5 [(⟨2024, 1, 1, 36000000000⟩, ⟨2024, 1, 1, 39600000000⟩, cEv1)] false
    (by decide) (by decide) (by decide)

/-- Availability as the spec sentence for C10 reduces it: true exactly when
the window query returns no occurrences.  This definition follows the
claim's words, for comparison with the source's `check_availability`. -/
def isAvailableSpec (cal : Calendar) (s e : PyDateTime) (fuel : Nat) : PyResult Bool :=
  match get_events_for_range cal s e fuel with
  | .ok l => .ok l.isEmpty
  | .err => .err
  | .fuelOut => .fuelOut

/-- Claim C10: because every occurrence returned by the window query for
`[start, end)` has its start in that window and positive duration, it
always passes the overlap test, so `check_availability` coincides with the
emptiness test on the window query. -/
theorem c10_availability_is_emptiness (cal : Calendar) (s e : PyDateTime) (fuel : Nat)
    (hval : ∀ ev ∈ cal.events, ValidEvent ev) (hse : dtLt s e) :
    check_availability cal s e fuel = isAvailableSpec cal s e fuel := by
  unfold check_availability isAvailableSpec
  cases hger : get_events_for_range cal s e fuel with
  | err => rfl
  | fuelOut => rfl
  | ok l =>
    have hall := ger_mem cal s e fuel l hval hger
    dsimp only
    congr 1
    cases l with
    | nil => rfl
    | cons q rest =>
      obtain ⟨h1, h2, _, _, h5⟩ := hall q (List.mem_cons_self _ _)
      obtain ⟨qs, qe, qev⟩ := q
      show availLoop s e ((qs, qe, qev) :: rest) = false
      unfold availLoop
      rw [if_pos ?_]
      constructor
      · unfold dtLe at h1
        unfold dtLt at h5 ⊢
        dsimp only at h1 h5 ⊢
        omega
      · exact h2
  
theorem c10_witness :
    check_availability cCal1 ⟨2024, 1, 1, 34200000000⟩ ⟨2024, 1, 1, 37800000000⟩ 5 =
      isAvailableSpec cCal1 ⟨2024, 1, 1, 34200000000⟩ ⟨2024, 1, 1, 37800000000⟩ 5 :=
  c10_availability_is_emptiness cCal1 ⟨2024, 1, 1, 34200000000⟩
    ⟨2024, 1, 1, 37800000000⟩ 5 (by decide) (by decide)

/-- Claim C4: the free-slot list is ordered (each gap ends no later than
the next one starts), every gap is at least `min_duration` minutes long,
and every gap lies inside a single day's work window
`[date@work_start, date@work_end)` — no gap spans midnight. -/
theorem c4_free_slots_shape (cal : Calendar) (start_date end_date : PyDateTime)
    (min_duration work_start work_end : Int) (fuelE fuelD : Nat)
    (l : List (PyDateTime × PyDateTime))
    (hcal : ∀ ev ∈ cal.events, ValidEvent ev)
    (hstart : ValidDT start_date)
    (hws : 0 ≤ work_start) (hwe : work_end < microsPerDay)
    (hok : find_free_slots cal start_date end_date min_duration work_start work_end
        fuelE fuelD = .ok l) :
    l.Pairwise (fun g h => dtLe g.2 h.1) ∧
    (∀ g ∈ l, dtLt g.1 g.2 ∧ minuteMicros * min_duration ≤ subDt g.2 g.1 ∧
      ∃ y m d : Int, dtLe (PyDateTime.mk y m d work_start) g.1 ∧
        dtLe g.2 (PyDateTime.mk y m d work_end)) := by
  unfold find_free_slots at hok
  obtain ⟨_, hGap, hPW⟩ := freeSlotsLoop_props cal end_date min_duration work_start
    work_end fuelE hcal hws hwe fuelD start_date l hstart hok
  constructor
  · exact hPW.imp (fun hab => hab)
  · intro g hg
    obtain ⟨h1, h2, y, m, d, h3, h4⟩ := hGap g hg
    exact ⟨h1, h2, y, m, d, h3, h4⟩

theorem c4_witness :
    ([(⟨2024, 1, 1, 28800000000⟩, ⟨2024, 1, 1, 36000000000⟩),
      (⟨2024, 1, 1, 39600000000⟩, ⟨2024, 1, 1, 79200000000⟩),
      (⟨2024, 1, 2, 28800000000⟩, ⟨2024, 1, 2, 79200000000⟩)] :
        List (PyDateTime × PyDateTime)).Pairwise (fun g h => dtLe g.2 h.1) ∧
    (∀ g ∈ ([(⟨2024, 1, 1, 28800000000⟩, ⟨2024, 1, 1, 36000000000⟩),
      (⟨2024, 1, 1, 39600000000⟩, ⟨2024, 1, 1, 79200000000⟩),
      (⟨2024, 1, 2, 28800000000⟩, ⟨2024, 1, 2, 79200000000⟩)] :
        List (PyDateTime × PyDateTime)),
      dtLt g.1 g.2 ∧ minuteMicros * 30 ≤ subDt g.2 g.1 ∧
      ∃ y m d : Int, dtLe (PyDateTime.mk y m d 28800000000) g.1 ∧
        dtLe g.2 (PyDateTime.mk y m d 79200000000)) :=
  c4_free_slots_shape cCal1 ⟨2024, 1, 1, 0⟩ ⟨2024, 1, 3, 0⟩ 30 28800000000 79200000000
    5 5
    [(⟨2024, 1, 1, 28800000000⟩, ⟨2024, 1, 1, 36000000000⟩),
     (⟨2024, 1, 1, 39600000000⟩, ⟨2024, 1, 1, 79200000000⟩),
     (⟨2024, 1, 2, 28800000000⟩, ⟨2024, 1, 2, 79200000000⟩)]
    (by decide) (by decide) (by decide) (by decide) (by decide)

-- ============================================================
-- Store-level fixtures and claims C2, C5
-- ============================================================

/-- Document for `cEv1` as stored. -/
def cDoc1 : EventDoc :=
  { id := "e1", user_id := "u1", title := "Lecture",
    start_time := ⟨2024, 1, 1, 36000000000⟩, end_time := ⟨2024, 1, 1, 39600000000⟩,
    event_type := "class", location := none, description := none,
    color := "#3498db", recurrence := "none", recurrence_end_date := none,
    reminders := [15, 60] }

def cStore1 : List EventDoc := [cDoc1]

/-- Claim C2, evaluated at the failing input: the store holds the single
non-recurring event e1 at 10:00–11:00; updating e1 to 09:30–10:30 triggers
the conflict check against the user's full calendar — which still contains
e1 itself, whose old occurrence starts inside the new window — so the
update fails with the scheduling-conflict error and commits nothing, even
though the calendar *without* e1 (second conjunct) is entirely free there.
The claim (and the spec) require the check to exclude the event being
updated, under which this update must succeed. -/
theorem c2_code_bug_eval :
    update_event cStore1 "e1" "u1"
      { start_time := some ⟨2024, 1, 1, 34200000000⟩,
        end_time := some ⟨2024, 1, 1, 37800000000⟩ } 5 =
      (.failure "New time conflicts with existing event", cStore1) ∧
    check_availability ⟨"u1", []⟩ ⟨2024, 1, 1, 34200000000⟩
      ⟨2024, 1, 1, 37800000000⟩ 5 = .ok true := by
  decide

/-- The `CalendarEvent` view of a stored document (the loaded event, for a
document whose times already satisfy the construction invariant). -/
def docToEvent (d : EventDoc) : CalendarEvent :=
  { id := d.id, user_id := d.user_id, title := d.title,
    start_time := d.start_time, end_time := d.end_time,
    event_type := d.event_type, location := d.location,
    description := d.description, color := d.color,
    recurrence := d.recurrence, recurrence_end_date := d.recurrence_end_date,
    reminders := d.reminders }

/-- Unbounded daily 09:00–10:00 series from 2024-01-01. -/
def cDocDaily : EventDoc :=
  { id := "e2", user_id := "u1", title := "Standup",
    start_time := ⟨2024, 1, 1, 32400000000⟩, end_time := ⟨2024, 1, 1, 36000000000⟩,
    event_type := "meeting", location := none, description := none,
    color := "#3498db", recurrence := "daily", recurrence_end_date := none,
    reminders := [15, 60] }

def cStore2 : List EventDoc := [cDocDaily]

/-- Deletion boundary: 2024-01-02 09:00:00.000001, one microsecond after
the Jan 2 occurrence's start. -/
def cFrom : PyDateTime := ⟨2024, 1, 2, 32400000001⟩

/-- The stored document after rule truncation at `cFrom`:
`recurrence_end_date = cFrom - 1µs = 2024-01-02 09:00:00.000000`. -/
def cDocDailyTrunc : EventDoc :=
  { cDocDaily with recurrence_end_date := some ⟨2024, 1, 2, 32400000000⟩ }

/-- Claim C5 counterexample: deleting future occurrences of the daily
series from boundary 2024-01-02 09:00:00.000001 truncates the rule end to
2024-01-02 09:00:00 exactly (one tick before the boundary) — but the Jan 2
occurrence, which starts strictly *before* the boundary, is then no longer
emitted (the rule end is exclusive), so "occurrences starting before the
boundary are preserved" fails at this input. -/
theorem c5_counterexample :
    delete_event cStore2 "e2" "u1" true (some cFrom) ⟨2024, 6, 1, 0⟩ =
      (.success "", [cDocDailyTrunc]) ∧
    dtLt (⟨2024, 1, 2, 32400000000⟩ : PyDateTime) cFrom ∧
    expand_recurring_event (docToEvent cDocDaily) ⟨2024, 1, 1, 0⟩ ⟨2024, 1, 4, 0⟩ 10 =
      .ok [(⟨2024, 1, 1, 32400000000⟩, ⟨2024, 1, 1, 36000000000⟩),
           (⟨2024, 1, 2, 32400000000⟩, ⟨2024, 1, 2, 36000000000⟩),
           (⟨2024, 1, 3, 32400000000⟩, ⟨2024, 1, 3, 36000000000⟩)] ∧
    expand_recurring_event (docToEvent cDocDailyTrunc) ⟨2024, 1, 1, 0⟩ ⟨2024, 1, 4, 0⟩ 10 =
      .ok [(⟨2024, 1, 1, 32400000000⟩, ⟨2024, 1, 1, 36000000000⟩)] := by
  decide

/-- Claim C5 amended: for a recurring event, `delete_future=true` with a
boundary at or before the series start deletes the whole document; a later
boundary keeps the document and sets `recurrence_end_date` to one
microsecond before the boundary; occurrences starting strictly before that
truncated end instant (i.e. before boundary − 1µs, not merely before the
boundary) are preserved, whenever both the original and the truncated
expansion return normally. -/
theorem c5_truncation (store : List EventDoc) (eid uid : String)
    (fd now : PyDateTime) (doc : EventDoc)
    (hfind : findDoc store eid uid = some doc)
    (hrec : doc.recurrence ≠ "none") :
    (dtLe fd doc.start_time →
      delete_event store eid uid true (some fd) now =
        (.success "", store.eraseP (docMatches eid uid))) ∧
    (¬ dtLe fd doc.start_time →
      delete_event store eid uid true (some fd) now =
        (.success "", modifyFirst (docMatches eid uid)
          (fun d => { d with recurrence_end_date := some (addMicros fd (-1)) }) store)) ∧
    (∀ (s e : PyDateTime) (fuel : Nat) (l1 l2 : List (PyDateTime × PyDateTime)),
      ValidDT doc.start_time →
      expand_recurring_event (docToEvent doc) s e fuel = .ok l1 →
      expand_recurring_event
        { docToEvent doc with recurrence_end_date := some (addMicros fd (-1)) }
        s e fuel = .ok l2 →
      ∀ p ∈ l1, dtLt p.1 (addMicros fd (-1)) → p ∈ l2) := by
  refine ⟨?_, ?_, ?_⟩
  · intro hle
    unfold delete_event
    rw [if_pos rfl]
    dsimp only [Option.getD]
    rw [hfind]
    dsimp only
    rw [if_neg hrec, if_pos hle]
  · intro hgt
    unfold delete_event
    rw [if_pos rfl]
    dsimp only [Option.getD]
    rw [hfind]
    dsimp only
    rw [if_neg hrec, if_neg hgt]
  · intro s e fuel l1 l2 hv hok1 hok2
    unfold expand_recurring_event at hok1 hok2
    rw [if_neg (by exact hrec : ¬ ((docToEvent doc).recurrence = "none"))] at hok1
    rw [if_neg (by exact hrec :
      ¬ (({ docToEvent doc with
            recurrence_end_date := some (addMicros fd (-1)) } : CalendarEvent).recurrence
          = "none"))] at hok2
    intro p hp hplt
    rcases expandLoop_narrow (docToEvent doc).recurrence s e
        (subDt (docToEvent doc).end_time (docToEvent doc).start_time)
        ((docToEvent doc).recurrence_end_date.getD e) (addMicros fd (-1)) fuel
        (docToEvent doc).start_time [] [] l1 l2 hv hok1 hok2 p hp with
      habs | hnlt | hmem
    · simp at habs
    · exact absurd hplt hnlt
    · exact hmem

theorem c5_truncation_witness :
    delete_event cStore2 "e2" "u1" true (some ⟨2024, 1, 1, 0⟩) ⟨2024, 6, 1, 0⟩ =
      (.success "", cStore2.eraseP (docMatches "e2" "u1")) :=
  (c5_truncation cStore2 "e2" "u1" ⟨2024, 1, 1, 0⟩ ⟨2024, 6, 1, 0⟩ cDocDaily
    (by decide) (by decide)).1 (by decide)
